import Mathlib

/-!
Verification of the `templatr` command-line templating tool
(`src/bin/index.js`).

Strings are modelled as `List Char`.  A parsed JSON data object is
modelled as a partial map `List Char → Option (List Char)` sending a key
to the string form of its value (`data[key] === undefined` corresponds
to `none`; number/null values are represented by their JavaScript string
form).  The platform is modelled as non-Windows, so the path separator
is `/`.
-/

namespace Templatr

/-- The character set matched by `\s` in a JavaScript regular expression. -/
def jsSpace (c : Char) : Bool :=
  c = ' ' || c = '\t' || c = '\n' || c = '\r' ||
  c = Char.ofNat 0x0B || c = Char.ofNat 0x0C ||
  c = Char.ofNat 0xA0 || c = Char.ofNat 0x1680 ||
  (0x2000 ≤ c.toNat && c.toNat ≤ 0x200A) ||
  c = Char.ofNat 0x2028 || c = Char.ofNat 0x2029 ||
  c = Char.ofNat 0x202F || c = Char.ofNat 0x205F ||
  c = Char.ofNat 0x3000 || c = Char.ofNat 0xFEFF

/-- Membership in the character class `[^\s.]` of the regex
`/%[^\s.]+?%/gm` in `generateTemplate` (src/bin/index.js:53).  Note that
the class excludes whitespace and the period but does NOT exclude `%`. -/
def isKeyChar (c : Char) : Bool := !jsSpace c && c != '.'

/-- The lazy search for the closing `%` performed by `[^\s.]+?%` once an
opening `%` has been consumed: consume at least one `[^\s.]` character,
stopping at the first possible closing `%`.  Returns the key and the
remaining characters after the closing `%`. -/
def findClose : List Char → Option (List Char × List Char)
  | [] => none
  | [_] => none
  | c :: d :: r2 =>
    if isKeyChar c then
      if d = '%' then some ([c], r2)
      else
        match findClose (d :: r2) with
        | some (k, r) => some (c :: k, r)
        | none => none
    else none

/-- One pass of the global regex scan `template.match(/%[^\s.]+?%/gm)`:
at each position, try to start a match at `%`; on success continue after
the match, on failure advance one character.  `fuel` only bounds the
recursion; `scanMatches` supplies enough of it. -/
def scanAux : Nat → List Char → List (List Char)
  | 0, _ => []
  | _ + 1, [] => []
  | fuel + 1, c :: rest =>
    if c = '%' then
      match findClose rest with
      | some (k, r) => ('%' :: (k ++ ['%'])) :: scanAux fuel r
      | none => scanAux fuel rest
    else scanAux fuel rest

/-- `template.match(/%[^\s.]+?%/gm) || []` (src/bin/index.js:55): the
list of matched substrings, in order, non-overlapping. -/
def scanMatches (l : List Char) : List (List Char) := scanAux l.length l

/-- Split `s` at the first occurrence of `pat`: returns the part before
and the part after the occurrence.  `none` when `pat` does not occur. -/
def splitAtFirst : List Char → List Char → Option (List Char × List Char)
  | [], pat => if pat.isPrefixOf ([] : List Char) then some ([], []) else none
  | c :: rest, pat =>
    if pat.isPrefixOf (c :: rest) then some ([], (c :: rest).drop pat.length)
    else
      match splitAtFirst rest pat with
      | some (b, a) => some (c :: b, a)
      | none => none

/-- The `GetSubstitution` processing that `String.prototype.replace`
applies to its replacement string: `$$` is a literal dollar, `$&` the
matched substring, a dollar followed by a backquote the part before the
match, a dollar followed by a quote the part after the match; any other
dollar is literal. -/
def getSubstitution (matched before after : List Char) : List Char → List Char
  | [] => []
  | [c] => [c]
  | c :: d :: rest =>
    if c = '$' then
      if d = '$' then '$' :: getSubstitution matched before after rest
      else if d = '&' then matched ++ getSubstitution matched before after rest
      else if d = Char.ofNat 96 then before ++ getSubstitution matched before after rest
      else if d = Char.ofNat 39 then after ++ getSubstitution matched before after rest
      else c :: getSubstitution matched before after (d :: rest)
    else c :: getSubstitution matched before after (d :: rest)

/-- `template.replace(match, value)` with a plain-string pattern:
replaces the first occurrence of `pat` (processing dollar patterns in
the replacement string), or returns `s` unchanged when `pat` does not
occur. -/
def replaceFirst (s pat repl : List Char) : List Char :=
  match splitAtFirst s pat with
  | some (b, a) => b ++ getSubstitution pat b a repl ++ a
  | none => s

/-- The body of the `for (let match of matches)` loop in
`generateTemplate` (src/bin/index.js:57-61): extract the key with
`match.slice(1, match.length - 1)`, look it up (`undefined` becomes
`''`), and replace the first occurrence of the matched string. -/
def replaceStep (data : List Char → Option (List Char)) (t m : List Char) : List Char :=
  let key := (m.drop 1).dropLast
  let value := match data key with | some v => v | none => []
  replaceFirst t m value

/-- `generateTemplate(template, data)` (src/bin/index.js:52-64). -/
def generateTemplate (template : List Char) (data : List Char → Option (List Char)) :
    List Char :=
  (scanMatches template).foldl (replaceStep data) template

/-- Fuel-based recursion for `renderSpec`. -/
def renderAux (data : List Char → Option (List Char)) : Nat → List Char → List Char
  | 0, _ => []
  | _ + 1, [] => []
  | fuel + 1, c :: rest =>
    if c = '%' then
      match findClose rest with
      | some (k, r) =>
        (match data k with | some v => v | none => []) ++ renderAux data fuel r
      | none => c :: renderAux data fuel rest
    else c :: renderAux data fuel rest

/-- The substitution function described by the specification (claim-side
definition, following the spec's words in §4.1/§8): every well-formed
token is replaced in place by the string form of its key's value (absent
keys giving the empty string) and every other character is preserved
verbatim and in order.  Substituted values are inserted verbatim and
never re-scanned. -/
def renderSpec (data : List Char → Option (List Char)) (l : List Char) : List Char :=
  renderAux data l.length l

/-- A data mapping is clean when no value's string form contains the
marker character `%` or the dollar character `$`. -/
def CleanData (data : List Char → Option (List Char)) : Prop :=
  ∀ k v, data k = some v → '%' ∉ v ∧ '$' ∉ v

/-- Invariant threaded through the substitution loop: every `%` in the
already-produced prefix `P` fails to open a token, even taking the
pending continuation `r` into account. -/
def ScanInv (P r : List Char) : Prop :=
  ∀ P1 P2, P = P1 ++ '%' :: P2 → findClose (P2 ++ r) = none

/-- Claim-side key-character class from the specification's wording:
"characters that are neither whitespace nor the marker nor a period"
(the marker `%` is excluded here, unlike in the code's class `[^\s.]`). -/
def isKeyCharSpec (c : Char) : Bool := !jsSpace c && c != '.' && c != '%'

/-- Claim-side analogue of `findClose` for the pattern of claim C2. -/
def findCloseSpec : List Char → Option (List Char × List Char)
  | [] => none
  | [_] => none
  | c :: d :: r2 =>
    if isKeyCharSpec c then
      if d = '%' then some ([c], r2)
      else
        match findCloseSpec (d :: r2) with
        | some (k, r) => some (c :: k, r)
        | none => none
    else none

/-- Claim-side analogue of `scanAux` for the pattern of claim C2. -/
def scanSpecAux : Nat → List Char → List (List Char)
  | 0, _ => []
  | _ + 1, [] => []
  | fuel + 1, c :: rest =>
    if c = '%' then
      match findCloseSpec rest with
      | some (k, r) => ('%' :: (k ++ ['%'])) :: scanSpecAux fuel r
      | none => scanSpecAux fuel rest
    else scanSpecAux fuel rest

/-- The tokens described by claim C2 (claim-side definition, following
the spec's words): non-overlapping occurrences of marker, one or more
characters that are neither whitespace nor the marker nor a period,
marker. -/
def scanMatchesSpec (l : List Char) : List (List Char) := scanSpecAux l.length l

/-! ## Input session (the `run` prompt loop, src/bin/index.js:126-183)

One invocation of `run` is modelled as a pure function of the session
state (`template`, `templateFileLocation`, `none` = `undefined`) and of
the environment: the (already trimmed) answers the operator gives to the
prompts, the outcome of the file reads, and whether `fs.writeFileSync`
succeeds.  The result records the prompts issued, the `console.log`
messages, the file written (name and content), and the recursive `run`
calls made, all in execution order. -/

/-- `str.includes(sub)` for JavaScript strings. -/
def includesSub (hay needle : List Char) : Bool :=
  needle.isPrefixOf hay ||
    match hay with
    | [] => false
    | _ :: t => includesSub t needle

/-- `getFileNameFromPath` (src/bin/index.js:35-38) on a non-Windows
platform: last segment of the path split on `/`. -/
def getFileNameFromPath (path : List Char) : List Char :=
  (List.splitOn '/' path).getLastD []

/-- JavaScript truthiness test used by `!template && !templateFileLocation`
(src/bin/index.js:127): `undefined` and the empty string are falsy. -/
def jsFalsy : Option (List Char) → Bool
  | none => true
  | some l => l.isEmpty

/-- Outcome of `readDataFile` (src/bin/index.js:99-101):
`JSON.parse(fs.readFileSync(filePath))` either returns a parsed object,
throws a `SyntaxError` from `JSON.parse`, or throws another error
(e.g. `ENOENT`) from `fs.readFileSync`. -/
inductive DataReadResult where
  | ok (d : List Char → Option (List Char))
  | syntaxErr
  | otherErr

/-- The environment one `run` invocation interacts with. -/
structure Env where
  templateAnswer : List Char
  templateRead : List Char → Option (List Char)
  dataAnswer : List Char
  dataRead : List Char → DataReadResult
  writeOk : Bool

/-- A recursive call made by `run`: `run()` with no arguments
(restart at Step 1) or `run({ template, templateFileLocation })`
(retry Step 2 with preserved state). -/
inductive Next where
  | restart
  | retryWith (template templateFileLocation : List Char)
deriving DecidableEq

/-- Observable effects of one `run` invocation. -/
structure RunResult where
  prompts : List (List Char)
  log : List (List Char)
  written : Option (List Char × List Char)
  next : List Next
deriving DecidableEq

/-- The text `askQuestion` passes to `rl.question` for the template
prompt (src/bin/index.js:75,128). -/
def templatePromptStr : List Char := "\nEnter template file location: ".toList

/-- The text `askQuestion` passes to `rl.question` for the data prompt
(src/bin/index.js:75,148). -/
def dataPromptStr : List Char := "\nEnter data file location: ".toList

/-- `'Template file should be of type html!'` (src/bin/index.js:134). -/
def templateTypeMsg : List Char := "Template file should be of type html!".toList

/-- `'Data file should be of type JSON!'` (src/bin/index.js:152). -/
def dataTypeMsg : List Char := "Data file should be of type JSON!".toList

/-- The not-found message used for both file kinds
(src/bin/index.js:140,164). -/
def notFoundMsg (p : List Char) : List Char :=
  "File '".toList ++ p ++ "' not found!".toList

/-- The invalid-JSON message (src/bin/index.js:162). -/
def invalidJsonMsg (p : List Char) : List Char :=
  "File '".toList ++ p ++ "' is invalid JSON!".toList

/-- `'Could not create file!'` logged by `writeFile` on a write error
(src/bin/index.js:116). -/
def couldNotCreateMsg : List Char := "Could not create file!".toList

/-- The served-URL message (src/bin/index.js:178-180). -/
def servedMsg (port fname : List Char) : List Char :=
  "New file is served on https://localhost:".toList ++ port ++ "/".toList ++ fname

/-- Steps 2 and 3 of `run` (src/bin/index.js:146-182), reached with a
template `tmpl` and its location `loc` in hand: prompt for the data
file, validate, read and parse it; on success render, write the result
(on a write error `writeFile` logs and calls its `onError` callback
`run`), log the served URL and call `run()` again unconditionally. -/
def runStep2 (port tmpl loc : List Char) (env : Env) : RunResult :=
  let d := env.dataAnswer
  if d.isEmpty || !includesSub d ".json".toList then
    ⟨[dataPromptStr], [dataTypeMsg], none, [Next.retryWith tmpl loc]⟩
  else
    match env.dataRead d with
    | DataReadResult.syntaxErr =>
      ⟨[dataPromptStr], [invalidJsonMsg d], none, [Next.retryWith tmpl loc]⟩
    | DataReadResult.otherErr =>
      ⟨[dataPromptStr], [notFoundMsg d], none, [Next.retryWith tmpl loc]⟩
    | DataReadResult.ok data =>
      let templateFileName := getFileNameFromPath loc
      let newContent := generateTemplate tmpl data
      if env.writeOk then
        ⟨[dataPromptStr], [servedMsg port templateFileName],
          some (templateFileName, newContent), [Next.restart]⟩
      else
        ⟨[dataPromptStr], [couldNotCreateMsg, servedMsg port templateFileName],
          none, [Next.restart, Next.restart]⟩

/-- One invocation of `run` (src/bin/index.js:126-183).  Step 1 runs
only when both state components are falsy; it prompts for the template
path, validates that it is non-empty and contains `.html`, and reads the
file, restarting from scratch (`run()`) on any failure. -/
def runStep (port : List Char) (template templateFileLocation : Option (List Char))
    (env : Env) : RunResult :=
  if jsFalsy template && jsFalsy templateFileLocation then
    let loc := env.templateAnswer
    if loc.isEmpty || !includesSub loc ".html".toList then
      ⟨[templatePromptStr], [templateTypeMsg], none, [Next.restart]⟩
    else
      match env.templateRead loc with
      | none => ⟨[templatePromptStr], [notFoundMsg loc], none, [Next.restart]⟩
      | some content =>
        let r := runStep2 port content loc env
        ⟨templatePromptStr :: r.prompts, r.log, r.written, r.next⟩
  else
    runStep2 port (template.getD []) (templateFileLocation.getD []) env

/-! ## Static server (src/bin/index.js:196-258)

The filesystem is abstracted: `readdirResult` is `some files` when
`fs.readdir` succeeds and `none` when it fails (in which case Node
passes `undefined` for `files` to the callback), and `fsRead` maps a
path to the raw bytes of the file, `none` when `fs.readFileSync`
throws. -/

/-- What the `fs.readdir` callback of `generateIndex` does to the
enclosing promise: resolve it, reject it, or throw before settling it
(in which case the promise stays pending forever and the exception is
uncaught). -/
inductive CbOut where
  | resolved (html : List Char)
  | rejected
  | threw
deriving DecidableEq

/-- One `<a>` line of the generated index (src/bin/index.js:206-209). -/
def anchorFor (port file : List Char) : List Char :=
  "<a href=\"https://localhost:".toList ++ port ++ "/".toList ++ file ++
    "\">".toList ++ file ++ "</a><br />".toList

/-- The index page template literal (src/bin/index.js:201-212). -/
def indexHtml (port : List Char) (files : List (List Char)) : List Char :=
  "<html><body>\n      ".toList ++
    (if files.length = 0 then "No files found!".toList
     else (files.map (anchorFor port)).foldl (· ++ ·) []) ++
    "\n      </body></html>".toList

/-- The callback body of `generateIndex` (src/bin/index.js:198-213),
faithful to the source order: `files = files.filter(...)` runs BEFORE
the `if (err) return reject(err)` check, so when `fs.readdir` reports an
error (`files` is `undefined`) the callback throws a `TypeError` and
neither `reject` nor `resolve` is ever reached. -/
def readdirCallback (port : List Char) (err : Bool) (files : Option (List (List Char))) :
    CbOut :=
  match files with
  | none => CbOut.threw
  | some fs =>
    let fs2 := fs.filter (fun f => f ≠ ".gitignore".toList)
    if err then CbOut.rejected else CbOut.resolved (indexHtml port fs2)

/-- An HTTP response: status code, content type, body. -/
structure Response where
  status : Nat
  contentType : List Char
  body : List Char
deriving DecidableEq

/-- `httpsRequestHandler` (src/bin/index.js:236-253).  Returns `none`
when the handler never sends a response for the request (the awaited
promise never settles because the `readdir` callback threw). -/
def httpsRequestHandler (port resultsDir : List Char)
    (readdirResult : Option (List (List Char)))
    (fsRead : List Char → Option (List Char)) (url : List Char) : Option Response :=
  if url = "/".toList then
    match
      (match readdirResult with
       | none => readdirCallback port true none
       | some fs => readdirCallback port false (some fs)) with
    | CbOut.resolved h => some ⟨200, "text/html".toList, h⟩
    | CbOut.rejected =>
      some ⟨404, "text/plain".toList, "Could not generate index".toList⟩
    | CbOut.threw => none
  else
    match fsRead (resultsDir ++ "/".toList ++ url) with
    | some content => some ⟨200, "text/html".toList, content⟩
    | none => some ⟨404, "text/plain".toList, "File not found!".toList⟩

/-! ## Lemmas about `findClose` -/

theorem isKeyChar_pct : isKeyChar '%' = true := by decide

theorem findClose_sound : ∀ l k r, findClose l = some (k, r) →
    l = k ++ '%' :: r ∧ k ≠ [] ∧ (∀ c ∈ k, isKeyChar c = true) ∧ '%' ∉ k.drop 1 := by
  intro l
  induction l with
  | nil => intro k r h; simp [findClose] at h
  | cons c rest IH =>
    intro k r h
    cases rest with
    | nil => simp [findClose] at h
    | cons d r2 =>
      by_cases hc : isKeyChar c
      · by_cases hd : d = '%'
        · subst hd
          simp only [findClose, if_pos hc, if_pos rfl, Option.some.injEq,
            Prod.mk.injEq] at h
          rcases h with ⟨rfl, rfl⟩
          refine ⟨rfl, by simp, ?_, by simp⟩
          intro x hx; simp at hx; subst hx; exact hc
        · simp only [findClose, if_pos hc, if_neg hd] at h
          cases hfc : findClose (d :: r2) with
          | none => rw [hfc] at h; simp at h
          | some p =>
            obtain ⟨k', r'⟩ := p
            rw [hfc] at h; simp at h
            rcases h with ⟨rfl, rfl⟩
            obtain ⟨heq, hne, hkey, hnp⟩ := IH k' r' hfc
            have hk'head : '%' ∉ k' := by
              cases k' with
              | nil => simp
              | cons e k'' =>
                have hde : d = e := by simpa using congrArg (·.head?) heq
                subst hde
                have hnp' : '%' ∉ k'' := by simpa using hnp
                intro hmem
                rcases List.mem_cons.mp hmem with h1 | h1
                · exact hd h1.symm
                · exact hnp' h1
            refine ⟨?_, by simp, ?_, by simpa using hk'head⟩
            · rw [List.cons_append]
              exact congrArg (c :: ·) heq
            · intro x hx
              rcases List.mem_cons.mp hx with hx | hx
              · subst hx; exact hc
              · exact hkey x hx
      · simp only [findClose, if_neg hc] at h
        exact Option.noConfusion h

theorem findClose_complete : ∀ (k r : List Char), k ≠ [] →
    (∀ c ∈ k, isKeyChar c = true) → findClose (k ++ '%' :: r) ≠ none := by
  intro k
  induction k with
  | nil => intro r h _; exact absurd rfl h
  | cons c k' IH =>
    intro r _ hkey
    have hc : isKeyChar c = true := hkey c (List.mem_cons_self c k')
    cases k' with
    | nil => simp [findClose, hc]
    | cons d k'' =>
      by_cases hd : d = '%'
      · subst hd; simp [findClose, hc]
      · have hrec := IH r (by simp) (fun x hx => hkey x (List.mem_cons_of_mem c hx))
        simp only [List.cons_append] at hrec ⊢
        simp only [findClose, if_pos hc, if_neg hd]
        cases hfc : findClose (d :: (k'' ++ '%' :: r)) with
        | none => exact absurd hfc hrec
        | some p => obtain ⟨a, b⟩ := p; simp

theorem findClose_none_iff : ∀ (l : List Char) (a : Char), isKeyChar a = true →
    (findClose (a :: l) = none ↔ '%' ∉ l.takeWhile isKeyChar) := by
  intro l
  induction l with
  | nil => intro a _; simp [findClose]
  | cons d r IH =>
    intro a ha
    by_cases hd : d = '%'
    · subst hd
      constructor
      · intro h; exfalso
        simp [findClose, ha] at h
      · intro h; exfalso
        apply h
        rw [List.takeWhile_cons, if_pos isKeyChar_pct]
        exact List.mem_cons_self _ _
    · by_cases hkd : isKeyChar d
      · rw [List.takeWhile_cons, if_pos hkd]
        have hIH := IH d hkd
        constructor
        · intro h hmem
          have hno : findClose (d :: r) = none := by
            simp only [findClose, if_pos ha, if_neg hd] at h
            cases hfc : findClose (d :: r) with
            | none => rfl
            | some p => obtain ⟨x, y⟩ := p; rw [hfc] at h; simp at h
          rcases List.mem_cons.mp hmem with h1 | h1
          · exact hd h1.symm
          · exact (hIH.mp hno) h1
        · intro h
          have hno : findClose (d :: r) = none :=
            hIH.mpr (fun hm => h (List.mem_cons_of_mem d hm))
          simp only [findClose, if_pos ha, if_neg hd, hno]
      · rw [List.takeWhile_cons, if_neg hkd]
        have hno : findClose (d :: r) = none := by
          cases r with
          | nil => simp [findClose]
          | cons e r' => simp only [findClose, if_neg hkd]
        simp only [findClose, if_pos ha, if_neg hd, hno]
        simp

theorem takeWhile_append_of_all {p : Char → Bool} : ∀ (A B : List Char),
    (∀ c ∈ A, p c = true) → (A ++ B).takeWhile p = A ++ B.takeWhile p := by
  intro A
  induction A with
  | nil => intro B _; simp
  | cons a A' IH =>
    intro B h
    have ha := h a (List.mem_cons_self a A')
    simp only [List.cons_append, List.takeWhile_cons, if_pos ha]
    rw [IH B (fun c hc => h c (List.mem_cons_of_mem a hc))]

theorem takeWhile_append_of_bad {p : Char → Bool} : ∀ (A B : List Char) (b : Char),
    b ∈ A → p b = false → (A ++ B).takeWhile p = A.takeWhile p := by
  intro A
  induction A with
  | nil => intro B b hb; simp at hb
  | cons a A' IH =>
    intro B b hb hpb
    by_cases hpa : p a
    · have hbA' : b ∈ A' := by
        rcases List.mem_cons.mp hb with h | h
        · subst h; rw [hpa] at hpb; simp at hpb
        · exact h
      simp only [List.cons_append, List.takeWhile_cons, if_pos hpa]
      rw [IH B b hbA' hpb]
    · simp only [List.cons_append, List.takeWhile_cons, if_neg hpa]

theorem findClose_none_stable : ∀ (A X Y : List Char), A ≠ [] →
    findClose (A ++ '%' :: X) = none → findClose (A ++ Y) = none := by
  intro A X Y hA h
  cases A with
  | nil => exact absurd rfl hA
  | cons a A' =>
    by_cases ha : isKeyChar a
    · have h1 : '%' ∉ (A' ++ '%' :: X).takeWhile isKeyChar :=
        (findClose_none_iff (A' ++ '%' :: X) a ha).mp (by simpa using h)
      have hbad : ∃ b ∈ A', isKeyChar b = false := by
        by_contra hall
        push_neg at hall
        have hall' : ∀ c ∈ A', isKeyChar c = true := by
          intro c hc
          simpa using hall c hc
        rw [takeWhile_append_of_all A' ('%' :: X) hall'] at h1
        have hmem : '%' ∈ A' ++ ('%' :: X).takeWhile isKeyChar := by
          apply List.mem_append_right
          rw [List.takeWhile_cons, if_pos isKeyChar_pct]
          exact List.mem_cons_self _ _
        exact h1 hmem
      obtain ⟨b, hbA, hbbad⟩ := hbad
      have h2 : (A' ++ '%' :: X).takeWhile isKeyChar = A'.takeWhile isKeyChar :=
        takeWhile_append_of_bad A' ('%' :: X) b hbA hbbad
      have h3 : (A' ++ Y).takeWhile isKeyChar = A'.takeWhile isKeyChar :=
        takeWhile_append_of_bad A' Y b hbA hbbad
      rw [h2] at h1
      apply (findClose_none_iff (A' ++ Y) a ha).mpr
      rw [h3]; exact h1
    · cases hAY : A' ++ Y with
      | nil => simp [List.cons_append, hAY, findClose]
      | cons e t => simp only [List.cons_append, hAY, findClose, if_neg ha]

/-! ## Unfolding lemmas for `scanMatches` -/

theorem scanAux_congr : ∀ f1 f2 (l : List Char), l.length ≤ f1 → l.length ≤ f2 →
    scanAux f1 l = scanAux f2 l := by
  intro f1
  induction f1 with
  | zero =>
    intro f2 l h1 _
    cases l with
    | nil => cases f2 <;> rfl
    | cons c rest => simp at h1
  | succ f1' IH =>
    intro f2 l h1 h2
    cases l with
    | nil => cases f2 <;> rfl
    | cons c rest =>
      cases f2 with
      | zero => simp at h2
      | succ f2' =>
        have hr1 : rest.length ≤ f1' := by simpa using h1
        have hr2 : rest.length ≤ f2' := by simpa using h2
        by_cases hc : c = '%'
        · subst hc
          cases hfc : findClose rest with
          | none => simp [scanAux, hfc, IH f2' rest hr1 hr2]
          | some p =>
            obtain ⟨k, r2⟩ := p
            have hsound := findClose_sound rest k r2 hfc
            have hlen : r2.length ≤ rest.length := by
              have := congrArg List.length hsound.1
              simp at this
              omega
            simp [scanAux, hfc, IH f2' r2 (hlen.trans hr1) (hlen.trans hr2)]
        · simp [scanAux, hc, IH f2' rest hr1 hr2]

theorem scanMatches_cons_ne {c : Char} (rest : List Char) (h : c ≠ '%') :
    scanMatches (c :: rest) = scanMatches rest := by
  simp [scanMatches, scanAux, h]

theorem scanMatches_pct_none {rest : List Char} (h : findClose rest = none) :
    scanMatches ('%' :: rest) = scanMatches rest := by
  simp [scanMatches, scanAux, h]

theorem scanMatches_pct_some {rest k r2 : List Char} (h : findClose rest = some (k, r2)) :
    scanMatches ('%' :: rest) = ('%' :: (k ++ ['%'])) :: scanMatches r2 := by
  have hsound := findClose_sound rest k r2 h
  have hlen : r2.length ≤ rest.length := by
    have := congrArg List.length hsound.1
    simp at this
    omega
  simp only [scanMatches, List.length_cons, scanAux, if_pos rfl, h]
  rw [scanAux_congr rest.length r2.length r2 hlen (le_refl _)]
  rfl

/-! ## Unfolding lemmas for `renderSpec` -/

theorem renderAux_congr (data : List Char → Option (List Char)) :
    ∀ f1 f2 (l : List Char), l.length ≤ f1 → l.length ≤ f2 →
    renderAux data f1 l = renderAux data f2 l := by
  intro f1
  induction f1 with
  | zero =>
    intro f2 l h1 _
    cases l with
    | nil => cases f2 <;> rfl
    | cons c rest => simp at h1
  | succ f1' IH =>
    intro f2 l h1 h2
    cases l with
    | nil => cases f2 <;> rfl
    | cons c rest =>
      cases f2 with
      | zero => simp at h2
      | succ f2' =>
        have hr1 : rest.length ≤ f1' := by simpa using h1
        have hr2 : rest.length ≤ f2' := by simpa using h2
        by_cases hc : c = '%'
        · subst hc
          cases hfc : findClose rest with
          | none => simp [renderAux, hfc, IH f2' rest hr1 hr2]
          | some p =>
            obtain ⟨k, r2⟩ := p
            have hsound := findClose_sound rest k r2 hfc
            have hlen : r2.length ≤ rest.length := by
              have := congrArg List.length hsound.1
              simp at this
              omega
            simp [renderAux, hfc, IH f2' r2 (hlen.trans hr1) (hlen.trans hr2)]
        · simp [renderAux, hc, IH f2' rest hr1 hr2]

theorem renderSpec_cons_ne (data : List Char → Option (List Char)) {c : Char}
    (rest : List Char) (h : c ≠ '%') :
    renderSpec data (c :: rest) = c :: renderSpec data rest := by
  simp [renderSpec, renderAux, h]

theorem renderSpec_pct_none (data : List Char → Option (List Char)) {rest : List Char}
    (h : findClose rest = none) :
    renderSpec data ('%' :: rest) = '%' :: renderSpec data rest := by
  simp [renderSpec, renderAux, h]

theorem renderSpec_pct_some (data : List Char → Option (List Char)) {rest k r2 : List Char}
    (h : findClose rest = some (k, r2)) :
    renderSpec data ('%' :: rest) =
      (match data k with | some v => v | none => []) ++ renderSpec data r2 := by
  have hsound := findClose_sound rest k r2 h
  have hlen : r2.length ≤ rest.length := by
    have := congrArg List.length hsound.1
    simp at this
    omega
  simp only [renderSpec, List.length_cons, renderAux, if_pos rfl, h]
  rw [renderAux_congr data rest.length r2.length r2 hlen (le_refl _)]
  rfl

/-! ## Lemmas about `getSubstitution` and `splitAtFirst` -/

theorem getSubstitution_no_dollar (m b a : List Char) :
    ∀ repl, '$' ∉ repl → getSubstitution m b a repl = repl := by
  intro repl
  induction repl with
  | nil => intro _; rfl
  | cons c rest IH =>
    intro h
    have hc : ¬(c = '$') := by
      intro e; subst e; exact h (List.mem_cons_self _ _)
    cases rest with
    | nil => rfl
    | cons d rest' =>
      simp only [getSubstitution, if_neg hc]
      rw [IH (fun hm => h (List.mem_cons_of_mem c hm))]

theorem splitAtFirst_cons (c : Char) (rest pat : List Char) :
    splitAtFirst (c :: rest) pat =
      if pat.isPrefixOf (c :: rest) = true then some ([], (c :: rest).drop pat.length)
      else
        match splitAtFirst rest pat with
        | some (b, a) => some (c :: b, a)
        | none => none := by
  rfl

theorem splitAtFirst_boundary : ∀ (X pat Y : List Char), pat ≠ [] →
    (∀ X1 X2, X = X1 ++ X2 → X2 ≠ [] → ¬(pat.isPrefixOf (X2 ++ pat ++ Y) = true)) →
    splitAtFirst (X ++ pat ++ Y) pat = some (X, Y) := by
  intro X
  induction X with
  | nil =>
    intro pat Y hpat _
    cases pat with
    | nil => exact absurd rfl hpat
    | cons p ps =>
      have hpre : (p :: ps).isPrefixOf (p :: (ps ++ Y)) = true := by
        apply List.isPrefixOf_iff_prefix.mpr
        have hp := List.prefix_append (p :: ps) Y
        simp only [List.cons_append] at hp
        exact hp
      have hgoal : splitAtFirst (p :: (ps ++ Y)) (p :: ps) = some ([], Y) := by
        rw [splitAtFirst_cons, if_pos hpre]
        have hdrop : (p :: (ps ++ Y)).drop (p :: ps).length = Y := by
          have hd := List.drop_left (p :: ps) Y
          simp only [List.cons_append] at hd
          exact hd
        rw [hdrop]
      simpa using hgoal
  | cons c X' IH =>
    intro pat Y hpat hno
    have hnopre : ¬(pat.isPrefixOf (c :: (X' ++ pat ++ Y)) = true) := by
      have h0 := hno [] (c :: X') rfl (by simp)
      simpa using h0
    have hrec : splitAtFirst (X' ++ pat ++ Y) pat = some (X', Y) := by
      apply IH pat Y hpat
      intro X1 X2 h1 h2
      exact hno (c :: X1) X2 (by rw [h1]; rfl) h2
    have hgoal : splitAtFirst (c :: (X' ++ pat ++ Y)) pat = some (c :: X', Y) := by
      rw [splitAtFirst_cons, if_neg hnopre, hrec]
    simpa using hgoal

/-! ## Properties of the substitution-loop invariant -/

theorem scanInv_nil (r : List Char) : ScanInv [] r := by
  intro P1 P2 h
  exfalso
  cases P1 <;> simp at h

theorem scanInv_skip {c : Char} {P r : List Char} (hc : c ≠ '%')
    (hinv : ScanInv P (c :: r)) : ScanInv (P ++ [c]) r := by
  intro P1 P2 heq
  rcases List.eq_nil_or_concat P2 with h2 | ⟨P2', e, h2⟩
  · subst h2
    have : P = P1 ∧ [c] = ['%'] := List.append_inj' heq rfl
    have hce : c = '%' := by simpa using this.2
    exact absurd hce hc
  · subst h2
    have heq' : P ++ [c] = (P1 ++ '%' :: P2') ++ [e] := by rw [heq]; simp
    have h3 : P = P1 ++ '%' :: P2' ∧ [c] = [e] := List.append_inj' heq' rfl
    have hce : c = e := by simpa using h3.2
    subst hce
    have := hinv P1 P2' h3.1
    simpa using this

theorem scanInv_skip_pct {P r : List Char} (hfc : findClose r = none)
    (hinv : ScanInv P ('%' :: r)) : ScanInv (P ++ ['%']) r := by
  intro P1 P2 heq
  rcases List.eq_nil_or_concat P2 with h2 | ⟨P2', e, h2⟩
  · subst h2
    simpa using hfc
  · subst h2
    have heq' : P ++ ['%'] = (P1 ++ '%' :: P2') ++ [e] := by rw [heq]; simp
    have h3 : P = P1 ++ '%' :: P2' ∧ ['%'] = [e] := List.append_inj' heq' rfl
    have hce : ('%' : Char) = e := by simpa using h3.2
    subst hce
    have := hinv P1 P2' h3.1
    simpa using this

theorem scanInv_subst {P k r2 val : List Char} (hv : '%' ∉ val)
    (hkey : ∀ c ∈ k, isKeyChar c = true) (_hkne : k ≠ [])
    (hinv : ScanInv P (('%' :: (k ++ ['%'])) ++ r2)) : ScanInv (P ++ val) r2 := by
  intro P1 P2 heq
  rcases List.append_eq_append_iff.mp heq with ⟨a', _, hval⟩ | ⟨c', hP, hPc⟩
  · exfalso
    apply hv
    rw [hval]
    exact List.mem_append_right a' (List.mem_cons_self _ _)
  · cases c' with
    | nil =>
      exfalso
      apply hv
      simp only [List.nil_append] at hPc
      rw [← hPc]
      exact List.mem_cons_self _ _
    | cons e c'' =>
      have he : ('%' : Char) = e ∧ P2 = c'' ++ val := by simpa using hPc
      obtain ⟨he1, he2⟩ := he
      have hPdec : P = P1 ++ '%' :: c'' := by rw [hP, ← he1]
      have hnone := hinv P1 c'' hPdec
      have hrw : ('%' :: (k ++ ['%'])) ++ r2 = '%' :: (k ++ '%' :: r2) := by simp
      rw [hrw] at hnone
      cases c'' with
      | nil =>
        exfalso
        have hcomp := findClose_complete ('%' :: k) r2 (by simp)
          (by
            intro x hx
            rcases List.mem_cons.mp hx with h1 | h1
            · subst h1; exact isKeyChar_pct
            · exact hkey x h1)
        apply hcomp
        simpa using hnone
      | cons x xs =>
        have hstable := findClose_none_stable (x :: xs) (k ++ '%' :: r2) (val ++ r2)
          (by simp) (by simpa using hnone)
        rw [he2]
        simpa using hstable

/-! ## The main correspondence between the loop and in-place substitution -/

theorem foldl_replace_renderSpec (data : List Char → Option (List Char))
    (hclean : CleanData data) :
    ∀ n r, r.length ≤ n → ∀ P, ScanInv P r →
      List.foldl (replaceStep data) (P ++ r) (scanMatches r) = P ++ renderSpec data r ∧
      ScanInv (P ++ renderSpec data r) [] := by
  intro n
  induction n with
  | zero =>
    intro r hr P hinv
    cases r with
    | cons c t => simp at hr
    | nil => exact ⟨rfl, by simpa [renderSpec, renderAux] using hinv⟩
  | succ n' IH =>
    intro r hr P hinv
    cases r with
    | nil => exact ⟨rfl, by simpa [renderSpec, renderAux] using hinv⟩
    | cons c rest =>
      have hrest : rest.length ≤ n' := by simpa using hr
      by_cases hc : c = '%'
      · subst hc
        cases hfc : findClose rest with
        | none =>
          rw [scanMatches_pct_none hfc, renderSpec_pct_none data hfc]
          have hmain := IH rest hrest (P ++ ['%']) (scanInv_skip_pct hfc hinv)
          constructor
          · have h1 : P ++ '%' :: rest = (P ++ ['%']) ++ rest := by simp
            rw [h1, hmain.1]
            simp
          · have := hmain.2
            simpa using this
        | some p =>
          obtain ⟨k, r2⟩ := p
          obtain ⟨heq, hkne, hkey, _⟩ := findClose_sound rest k r2 hfc
          rw [scanMatches_pct_some hfc, renderSpec_pct_some data hfc]
          have hr2len : r2.length ≤ n' := by
            have hl := congrArg List.length heq
            simp at hl
            omega
          have hmr : ('%' :: (k ++ ['%'])) ++ r2 = '%' :: rest := by
            rw [heq]; simp
          have hval_clean :
              '%' ∉ (match data k with | some v => v | none => []) ∧
              '$' ∉ (match data k with | some v => v | none => []) := by
            cases hdk : data k with
            | none => simp
            | some v => simpa using hclean k v hdk
          have hsplit : splitAtFirst (P ++ ('%' :: (k ++ ['%'])) ++ r2)
              ('%' :: (k ++ ['%'])) = some (P, r2) := by
            apply splitAtFirst_boundary P ('%' :: (k ++ ['%'])) r2 (by simp)
            intro X1 X2 hX hX2 hpre
            obtain ⟨t, ht⟩ := List.isPrefixOf_iff_prefix.mp hpre
            cases X2 with
            | nil => exact hX2 rfl
            | cons e X2' =>
              have he : ('%' : Char) = e := by
                have hh := congrArg List.head? ht
                simpa using hh
              subst he
              have hnone := hinv X1 X2' hX
              have ht2 : ('%' :: (k ++ ['%'])) ++ t = ('%' :: X2') ++ ('%' :: rest) := by
                rw [ht, List.append_assoc, hmr]
              have htail : k ++ '%' :: t = X2' ++ '%' :: rest := by
                simpa using ht2
              exact findClose_complete k t hkne hkey (by rw [htail]; exact hnone)
          have hPr : P ++ '%' :: rest = P ++ ('%' :: (k ++ ['%'])) ++ r2 := by
            rw [List.append_assoc, hmr]
          have hkeyeq : ((('%' :: (k ++ ['%'])).drop 1).dropLast : List Char) = k := by
            simp
          have hstep : replaceStep data (P ++ '%' :: rest) ('%' :: (k ++ ['%'])) =
              (P ++ (match data k with | some v => v | none => [])) ++ r2 := by
            rw [hPr]
            simp only [replaceStep, hkeyeq, replaceFirst, hsplit]
            rw [getSubstitution_no_dollar ('%' :: (k ++ ['%'])) P r2 _ hval_clean.2]
          have hinvm : ScanInv P (('%' :: (k ++ ['%'])) ++ r2) := by
            rw [hmr]; exact hinv
          have hinv2 :
              ScanInv (P ++ (match data k with | some v => v | none => [])) r2 :=
            scanInv_subst hval_clean.1 hkey hkne hinvm
          have hmain := IH r2 hr2len _ hinv2
          constructor
          · rw [List.foldl_cons, hstep, hmain.1]
            simp
          · have h2 := hmain.2
            simpa using h2
      · rw [scanMatches_cons_ne rest hc, renderSpec_cons_ne data rest hc]
        have hmain := IH rest hrest (P ++ [c]) (scanInv_skip hc hinv)
        constructor
        · have h1 : P ++ c :: rest = (P ++ [c]) ++ rest := by simp
          rw [h1, hmain.1]
          simp
        · have h2 := hmain.2
          simpa using h2

/-! ## Consequences of the main correspondence -/

theorem generateTemplate_eq_renderSpec (data : List Char → Option (List Char))
    (hclean : CleanData data) (t : List Char) :
    generateTemplate t data = renderSpec data t := by
  have h := foldl_replace_renderSpec data hclean t.length t (le_refl _) [] (scanInv_nil t)
  simpa [generateTemplate] using h.1

theorem scanInv_generateTemplate (data : List Char → Option (List Char))
    (hclean : CleanData data) (t : List Char) :
    ScanInv (generateTemplate t data) [] := by
  have h := foldl_replace_renderSpec data hclean t.length t (le_refl _) [] (scanInv_nil t)
  rw [generateTemplate_eq_renderSpec data hclean t]
  simpa using h.2

theorem scanAux_sound : ∀ (fuel : Nat) (l m : List Char), m ∈ scanAux fuel l →
    ∃ k, m = '%' :: (k ++ ['%']) ∧ k ≠ [] ∧ (∀ c ∈ k, isKeyChar c = true) ∧
      '%' ∉ k.drop 1 := by
  intro fuel
  induction fuel with
  | zero => intro l m h; simp [scanAux] at h
  | succ f IH =>
    intro l m h
    cases l with
    | nil => simp [scanAux] at h
    | cons c rest =>
      by_cases hc : c = '%'
      · subst hc
        cases hfc : findClose rest with
        | none =>
          simp only [scanAux, if_pos rfl, hfc] at h
          exact IH rest m h
        | some p =>
          obtain ⟨k, r2⟩ := p
          simp only [scanAux, if_pos rfl, hfc] at h
          rcases List.mem_cons.mp h with h1 | h1
          · obtain ⟨_, hkne, hkey, hnp⟩ := findClose_sound rest k r2 hfc
            exact ⟨k, h1, hkne, hkey, hnp⟩
          · exact IH r2 m h1
      · simp only [scanAux, if_neg hc] at h
        exact IH rest m h

theorem scanInv_no_token {Q : List Char} (hQ : ScanInv Q []) :
    ∀ k, k ≠ [] → (∀ c ∈ k, isKeyChar c = true) →
    ¬(('%' :: (k ++ ['%'])) <:+: Q) := by
  intro k hkne hkey hinf
  obtain ⟨A, B, hAB⟩ := hinf
  have hdec : Q = A ++ '%' :: (k ++ '%' :: B) := by rw [← hAB]; simp
  have hnone := hQ A (k ++ '%' :: B) hdec
  rw [List.append_nil] at hnone
  exact findClose_complete k B hkne hkey hnone

theorem isInfix_cons {l t : List Char} (a : Char) (h : l <:+: t) : l <:+: a :: t := by
  obtain ⟨s, u, hsu⟩ := h
  exact ⟨a :: s, u, by rw [← hsu]; simp⟩

theorem isInfix_append_left {l t : List Char} (s : List Char) (h : l <:+: t) :
    l <:+: s ++ t := by
  obtain ⟨x, y, hxy⟩ := h
  exact ⟨s ++ x, y, by rw [← hxy]; simp⟩

theorem value_infix_renderSpec (data : List Char → Option (List Char)) :
    ∀ (n : Nat) (l : List Char), l.length ≤ n → ∀ k v,
      ('%' :: (k ++ ['%'])) ∈ scanMatches l → data k = some v →
      v <:+: renderSpec data l := by
  intro n
  induction n with
  | zero =>
    intro l hl k v hmem _
    cases l with
    | nil => simp [scanMatches, scanAux] at hmem
    | cons c t => simp at hl
  | succ n' IH =>
    intro l hl k v hmem hdk
    cases l with
    | nil => simp [scanMatches, scanAux] at hmem
    | cons c rest =>
      have hrest : rest.length ≤ n' := by simpa using hl
      by_cases hc : c = '%'
      · subst hc
        cases hfc : findClose rest with
        | none =>
          rw [scanMatches_pct_none hfc] at hmem
          rw [renderSpec_pct_none data hfc]
          exact isInfix_cons '%' (IH rest hrest k v hmem hdk)
        | some p =>
          obtain ⟨k', r2⟩ := p
          rw [scanMatches_pct_some hfc] at hmem
          rw [renderSpec_pct_some data hfc]
          rcases List.mem_cons.mp hmem with h1 | h1
          · have hkk : k = k' := by
              have h2 : k ++ ['%'] = k' ++ ['%'] := by simpa using h1
              exact (List.append_inj' h2 rfl).1
            subst hkk
            rw [hdk]
            exact ⟨[], renderSpec data r2, by simp⟩
          · have hlen2 : r2.length ≤ n' := by
              obtain ⟨heq, _, _, _⟩ := findClose_sound rest k' r2 hfc
              have hle := congrArg List.length heq
              simp at hle
              omega
            exact isInfix_append_left _ (IH r2 hlen2 k v h1 hdk)
      · rw [scanMatches_cons_ne rest hc] at hmem
        rw [renderSpec_cons_ne data rest hc]
        exact isInfix_cons c (IH rest hrest k v hmem hdk)

/-! ## Claim C1 -/

/-- Claim C1 as stated is false: with template `"%a% %b%"` and data
`{a: "%b%", b: "X"}` the code produces `"X %b%"` (the value `"%b%"`
substituted for `%a%` is itself consumed by the later replacement of
`%b%`, and the original `%b%` token survives), while the claimed
in-place substitution produces `"%b% X"`. -/
theorem c1_counterexample :
    generateTemplate "%a% %b%".toList
        (fun k => if k = "a".toList then some "%b%".toList
          else if k = "b".toList then some "X".toList else none) = "X %b%".toList ∧
    renderSpec
        (fun k => if k = "a".toList then some "%b%".toList
          else if k = "b".toList then some "X".toList else none)
        "%a% %b%".toList = "%b% X".toList ∧
    generateTemplate "%a% %b%".toList
        (fun k => if k = "a".toList then some "%b%".toList
          else if k = "b".toList then some "X".toList else none) ≠
      renderSpec
        (fun k => if k = "a".toList then some "%b%".toList
          else if k = "b".toList then some "X".toList else none)
        "%a% %b%".toList := by
  exact ⟨by decide, by decide, by decide⟩

/-- Claim C1 (amended): for every template `T` and data mapping whose
values' string forms contain neither the marker `%` nor the dollar
character `$`, `generateTemplate` replaces every well-formed token whose
key is present by the key's value, every token whose key is absent by
the empty string, and preserves all other characters verbatim and in
order (that is, it agrees with the in-place substitution
`renderSpec`). -/
theorem c1_amended (T : List Char) (data : List Char → Option (List Char))
    (hclean : CleanData data) : generateTemplate T data = renderSpec data T :=
  generateTemplate_eq_renderSpec data hclean T

/-- Witness for `c1_amended` at the template and data of the README
example. -/
theorem c1_amended_witness :
    CleanData (fun k => if k = "name".toList then some "Dasha".toList else none) ∧
    generateTemplate "<p>Hello %name%!</p>".toList
        (fun k => if k = "name".toList then some "Dasha".toList else none) =
      renderSpec (fun k => if k = "name".toList then some "Dasha".toList else none)
        "<p>Hello %name%!</p>".toList := by
  have hclean :
      CleanData (fun k => if k = "name".toList then some "Dasha".toList else none) := by
    intro k v h
    simp at h
    obtain ⟨-, hv⟩ := h
    subst hv
    exact ⟨by decide, by decide⟩
  exact ⟨hclean, c1_amended _ _ hclean⟩

/-! ## Claim C2 -/

/-- Claim C2 as stated is false: the code's key class `[^\s.]` does not
exclude the marker.  On `"%%a%"` the code recognizes the token `"%%a%"`
(key `"%a"`, which contains the marker), while the claimed pattern
(marker excluded from keys) recognizes `"%a%"`. -/
theorem c2_counterexample :
    scanMatches "%%a%".toList = ["%%a%".toList] ∧
    scanMatchesSpec "%%a%".toList = ["%a%".toList] ∧
    scanMatches "%%a%".toList ≠ scanMatchesSpec "%%a%".toList := by
  exact ⟨by decide, by decide, by decide⟩

/-- Claim C2 (amended): every token recognized by `generateTemplate` is
marker, one or more characters that are neither whitespace nor a period,
marker — but the key class does not exclude the marker itself: a key may
begin with `%` (lazy matching keeps `%` out of all later key
positions). -/
theorem c2_amended (T m : List Char) (hm : m ∈ scanMatches T) :
    ∃ k, m = '%' :: (k ++ ['%']) ∧ k ≠ [] ∧ (∀ c ∈ k, isKeyChar c = true) ∧
      '%' ∉ k.drop 1 :=
  scanAux_sound T.length T m hm

/-- Witness for `c2_amended` on a concrete template. -/
theorem c2_amended_witness :
    ("%ab%".toList ∈ scanMatches "x %ab% y".toList) ∧
    (∃ k, "%ab%".toList = '%' :: (k ++ ['%']) ∧ k ≠ [] ∧
      (∀ c ∈ k, isKeyChar c = true) ∧ '%' ∉ k.drop 1) :=
  ⟨by decide, c2_amended "x %ab% y".toList "%ab%".toList (by decide)⟩

/-! ## Claim C3 -/

/-- Claim C3 as stated is false: with template `"%p% %q%"` and data
`{p: "%q%", q: "Y"}` the value `"%q%"` substituted for `%p%` is replaced
by the subsequent substitution for `%q%`, so the output is `"Y %q%"`,
not the single-pass result `"%q% Y"`. -/
theorem c3_counterexample :
    generateTemplate "%p% %q%".toList
        (fun k => if k = "p".toList then some "%q%".toList
          else if k = "q".toList then some "Y".toList else none) = "Y %q%".toList ∧
    renderSpec
        (fun k => if k = "p".toList then some "%q%".toList
          else if k = "q".toList then some "Y".toList else none)
        "%p% %q%".toList = "%q% Y".toList ∧
    generateTemplate "%p% %q%".toList
        (fun k => if k = "p".toList then some "%q%".toList
          else if k = "q".toList then some "Y".toList else none) ≠
      renderSpec
        (fun k => if k = "p".toList then some "%q%".toList
          else if k = "q".toList then some "Y".toList else none)
        "%p% %q%".toList := by
  exact ⟨by decide, by decide, by decide⟩

/-- Claim C3 (amended): provided no data value's string form contains
the marker `%` or the dollar character `$`, substitution is single-pass:
the value substituted for each recognized token appears verbatim as a
contiguous substring of the output and is not disturbed by any
subsequent substitution. -/
theorem c3_amended (T : List Char) (data : List Char → Option (List Char))
    (hclean : CleanData data) (k v : List Char)
    (hmem : ('%' :: (k ++ ['%'])) ∈ scanMatches T) (hv : data k = some v) :
    v <:+: generateTemplate T data := by
  rw [generateTemplate_eq_renderSpec data hclean T]
  exact value_infix_renderSpec data T.length T (le_refl _) k v hmem hv

/-- Witness for `c3_amended` on a concrete template and mapping. -/
theorem c3_amended_witness :
    CleanData (fun k => if k = "w".toList then some "hello".toList else none) ∧
    ('%' :: ("w".toList ++ ['%'])) ∈ scanMatches "a %w% b".toList ∧
    "hello".toList <:+:
      generateTemplate "a %w% b".toList
        (fun k => if k = "w".toList then some "hello".toList else none) := by
  have hclean :
      CleanData (fun k => if k = "w".toList then some "hello".toList else none) := by
    intro k v h
    simp at h
    obtain ⟨-, hv⟩ := h
    subst hv
    exact ⟨by decide, by decide⟩
  exact ⟨hclean, by decide,
    c3_amended "a %w% b".toList _ hclean "w".toList "hello".toList (by decide) rfl⟩

/-! ## Claim C4 -/

/-- Claim C4 as stated is false: with template `"%v%"` and data
`{v: "$&"}` the single occurrence of the token `%v%` is not replaced by
the value's string form `"$&"`: JavaScript's replacement-pattern
processing re-inserts the matched token, so the output is `"%v%"`. -/
theorem c4_counterexample :
    generateTemplate "%v%".toList
        (fun k => if k = "v".toList then some "$&".toList else none) =
      "%v%".toList ∧
    generateTemplate "%v%".toList
        (fun k => if k = "v".toList then some "$&".toList else none) ≠
      "$&".toList := by
  exact ⟨by decide, by decide⟩

/-- Claim C4 (amended): provided no data value's string form contains
the marker `%` or the dollar character `$`, every occurrence of every
recognized token string is replaced — no recognized token survives as a
substring of the output, not even a later duplicate occurrence (each
occurrence receiving the same value by `c1_amended`'s in-place
semantics). -/
theorem c4_amended (T : List Char) (data : List Char → Option (List Char))
    (hclean : CleanData data) (t : List Char) (hmem : t ∈ scanMatches T) :
    ¬(t <:+: generateTemplate T data) := by
  obtain ⟨k, rfl, hkne, hkey, _⟩ := scanAux_sound T.length T t hmem
  exact scanInv_no_token (scanInv_generateTemplate data hclean T) k hkne hkey

/-- Witness for `c4_amended`: the token `%a%` occurs twice and no
occurrence survives in the output. -/
theorem c4_amended_witness :
    CleanData (fun k => if k = "a".toList then some "z".toList else none) ∧
    ("%a%".toList ∈ scanMatches "%a% and %a%".toList) ∧
    ¬("%a%".toList <:+:
      generateTemplate "%a% and %a%".toList
        (fun k => if k = "a".toList then some "z".toList else none)) := by
  have hclean :
      CleanData (fun k => if k = "a".toList then some "z".toList else none) := by
    intro k v h
    simp at h
    obtain ⟨-, hv⟩ := h
    subst hv
    exact ⟨by decide, by decide⟩
  exact ⟨hclean, by decide,
    c4_amended "%a% and %a%".toList _ hclean "%a%".toList (by decide)⟩

/-! ## Claim C5 -/

/-- Claim C5: when `generateTemplate T data` contains no well-formed
token (the scan finds no match), rendering it again is the identity:
`generateTemplate (generateTemplate T data) data = generateTemplate T
data`. -/
theorem c5_idempotent (T : List Char) (data : List Char → Option (List Char))
    (h : scanMatches (generateTemplate T data) = []) :
    generateTemplate (generateTemplate T data) data = generateTemplate T data := by
  rw [generateTemplate, h]
  rfl

/-- Witness for `c5_idempotent` on a concrete token-free output. -/
theorem c5_witness :
    scanMatches (generateTemplate "<p>%x%</p>".toList
      (fun k => if k = "x".toList then some "7".toList else none)) = [] ∧
    generateTemplate
        (generateTemplate "<p>%x%</p>".toList
          (fun k => if k = "x".toList then some "7".toList else none))
        (fun k => if k = "x".toList then some "7".toList else none) =
      generateTemplate "<p>%x%</p>".toList
        (fun k => if k = "x".toList then some "7".toList else none) :=
  ⟨by decide, c5_idempotent _ _ (by decide)⟩

/-! ## Claim C6 -/

/-- Claim C6: in the data-file step, a file that reads but fails to
parse yields the invalid-JSON message while an unreadable file yields
the not-found message; the two messages are distinct, and in both cases
only Step 2 is retried — `run` is re-entered with the already-acquired
template content and template file location unchanged. -/
theorem c6_data_errors (port t l p : List Char) (env1 env2 : Env)
    (ht : t ≠ [])
    (h1a : env1.dataAnswer = p) (h2a : env2.dataAnswer = p)
    (hp : p ≠ []) (hpj : includesSub p ".json".toList = true)
    (h1r : env1.dataRead p = DataReadResult.syntaxErr)
    (h2r : env2.dataRead p = DataReadResult.otherErr) :
    runStep port (some t) (some l) env1 =
      ⟨[dataPromptStr], [invalidJsonMsg p], none, [Next.retryWith t l]⟩ ∧
    runStep port (some t) (some l) env2 =
      ⟨[dataPromptStr], [notFoundMsg p], none, [Next.retryWith t l]⟩ ∧
    invalidJsonMsg p ≠ notFoundMsg p := by
  have hfalsy : jsFalsy (some t) = false := by
    cases t with
    | nil => exact absurd rfl ht
    | cons c t' => rfl
  have hpe : p.isEmpty = false := by
    cases p with
    | nil => exact absurd rfl hp
    | cons c p' => rfl
  have hpj' : includesSub p ['.', 'j', 's', 'o', 'n'] = true := by simpa using hpj
  refine ⟨?_, ?_, ?_⟩
  · simp [runStep, hfalsy, runStep2, h1a, hp, hpj', h1r]
  · simp [runStep, hfalsy, runStep2, h2a, hp, hpj', h2r]
  · intro hmsg
    have hlen := congrArg List.length hmsg
    have h18 : ("' is invalid JSON!".toList).length = 18 := by decide
    have h12 : ("' not found!".toList).length = 12 := by decide
    simp [invalidJsonMsg, notFoundMsg, h18, h12] at hlen

/-- Witness for `c6_data_errors` with concrete environments. -/
theorem c6_witness :
    runStep "3000".toList (some "<p></p>".toList) (some "a/t.html".toList)
        ⟨[], fun _ => none, "d.json".toList, fun _ => DataReadResult.syntaxErr, true⟩ =
      ⟨[dataPromptStr], [invalidJsonMsg "d.json".toList], none,
        [Next.retryWith "<p></p>".toList "a/t.html".toList]⟩ ∧
    runStep "3000".toList (some "<p></p>".toList) (some "a/t.html".toList)
        ⟨[], fun _ => none, "d.json".toList, fun _ => DataReadResult.otherErr, true⟩ =
      ⟨[dataPromptStr], [notFoundMsg "d.json".toList], none,
        [Next.retryWith "<p></p>".toList "a/t.html".toList]⟩ ∧
    invalidJsonMsg "d.json".toList ≠ notFoundMsg "d.json".toList :=
  c6_data_errors "3000".toList "<p></p>".toList "a/t.html".toList "d.json".toList
    ⟨[], fun _ => none, "d.json".toList, fun _ => DataReadResult.syntaxErr, true⟩
    ⟨[], fun _ => none, "d.json".toList, fun _ => DataReadResult.otherErr, true⟩
    (by decide) rfl rfl (by decide) (by decide) rfl rfl

/-! ## Claim C7 -/

/-- Claim C7: in the template step, a prompted path that is empty or
lacks `.html`, and a well-formed path whose file cannot be read, each
produce a reason message and a bare `run()` restart (all partial state
discarded); in both cases the only prompt issued is the template prompt
— no data-file prompt is consumed by the failed attempt. -/
theorem c7_template_errors (port : List Char) (env1 env2 : Env) (q : List Char)
    (h1 : (env1.templateAnswer.isEmpty ||
      !includesSub env1.templateAnswer ".html".toList) = true)
    (h2a : env2.templateAnswer = q)
    (hq : (q.isEmpty || !includesSub q ".html".toList) = false)
    (h2r : env2.templateRead q = none) :
    runStep port none none env1 =
      ⟨[templatePromptStr], [templateTypeMsg], none, [Next.restart]⟩ ∧
    runStep port none none env2 =
      ⟨[templatePromptStr], [notFoundMsg q], none, [Next.restart]⟩ := by
  have h1' : env1.templateAnswer = [] ∨
      includesSub env1.templateAnswer ['.', 'h', 't', 'm', 'l'] = false := by
    simpa using h1
  have hq' : ¬(q = []) ∧ includesSub q ['.', 'h', 't', 'm', 'l'] = true := by
    simpa using hq
  constructor
  · rcases h1' with h | h
    · simp [runStep, jsFalsy, h]
    · simp [runStep, jsFalsy, h]
  · simp [runStep, jsFalsy, h2a, hq'.1, hq'.2, h2r]

/-- Witness for `c7_template_errors` with concrete environments. -/
theorem c7_witness :
    runStep "3000".toList none none
        ⟨"t.txt".toList, fun _ => none, [], fun _ => DataReadResult.otherErr, true⟩ =
      ⟨[templatePromptStr], [templateTypeMsg], none, [Next.restart]⟩ ∧
    runStep "3000".toList none none
        ⟨"ghost.html".toList, fun _ => none, [], fun _ => DataReadResult.otherErr, true⟩ =
      ⟨[templatePromptStr], [notFoundMsg "ghost.html".toList], none, [Next.restart]⟩ :=
  c7_template_errors "3000".toList
    ⟨"t.txt".toList, fun _ => none, [], fun _ => DataReadResult.otherErr, true⟩
    ⟨"ghost.html".toList, fun _ => none, [], fun _ => DataReadResult.otherErr, true⟩
    "ghost.html".toList (by decide) rfl (by decide) rfl

/-! ## Claim C8 -/

/-- Claim C8 is a code bug: when `fs.readdir` fails, Node passes
`undefined` for `files`, and the callback of `generateIndex` evaluates
`files.filter(...)` BEFORE the `if (err) return reject(err)` guard, so
it throws a `TypeError`; the promise never settles, the `catch` in
`httpsRequestHandler` never runs, and no 404 (or any) response is sent
for the request.  This theorem evaluates the handler at the failing
input: the result is `none` (no response), not a 404. -/
theorem c8_enumeration_failure_no_response (port resultsDir : List Char)
    (fsRead : List Char → Option (List Char)) :
    httpsRequestHandler port resultsDir none fsRead "/".toList = none := by
  rfl

/-! ## Claim C9 -/

/-- Claim C9: for a non-root request path the handler performs a single
file read at the results directory joined with the path as supplied
(the leading slash of the URL sits after the directory's own slash, so
the name resolves directly under the results directory); a successful
read yields status 200 with the raw bytes and content-type `text/html`
regardless of the file's actual type, and a failed read yields 404 with
the plain-text body `File not found!`. -/
theorem c9_serve_file (port resultsDir : List Char)
    (readdirResult : Option (List (List Char)))
    (fsRead : List Char → Option (List Char)) (url : List Char)
    (hurl : url ≠ "/".toList) :
    (∀ b, fsRead (resultsDir ++ "/".toList ++ url) = some b →
      httpsRequestHandler port resultsDir readdirResult fsRead url =
        some ⟨200, "text/html".toList, b⟩) ∧
    (fsRead (resultsDir ++ "/".toList ++ url) = none →
      httpsRequestHandler port resultsDir readdirResult fsRead url =
        some ⟨404, "text/plain".toList, "File not found!".toList⟩) := by
  have hurl' : ¬(url = ['/']) := by simpa using hurl
  constructor
  · intro b hb
    have hb' : fsRead (resultsDir ++ '/' :: url) = some b := by simpa using hb
    simp [httpsRequestHandler, hurl', hb']
  · intro hb
    have hb' : fsRead (resultsDir ++ '/' :: url) = none := by simpa using hb
    simp [httpsRequestHandler, hurl', hb']

/-- Witness for `c9_serve_file`: serving `/x.html` reads
`R//x.html` (double slash: the URL's own leading slash) and returns its
bytes with an HTML content type. -/
theorem c9_witness :
    httpsRequestHandler "3000".toList "R".toList none
        (fun q => if q = "R//x.html".toList then some "BODY".toList else none)
        "/x.html".toList =
      some ⟨200, "text/html".toList, "BODY".toList⟩ :=
  (c9_serve_file "3000".toList "R".toList none
      (fun q => if q = "R//x.html".toList then some "BODY".toList else none)
      "/x.html".toList (by decide)).1
    "BODY".toList (by decide)

/-! ## Claim C10 -/

/-- Claim C10: when the artifact write fails, `writeFile` logs and calls
its `onError` callback — which `run` passes as `run` itself — and the
cycle then still logs the served-URL message and calls `run()` again
unconditionally, so one write failure starts two new prompt cycles
(`next` has length 2), each of which begins with a template-path
prompt. -/
theorem c10_write_failure_double_run (port t l : List Char) (env : Env)
    (d : List Char → Option (List Char))
    (ht : t ≠ [])
    (ha : env.dataAnswer ≠ [])
    (hj : includesSub env.dataAnswer ".json".toList = true)
    (hr : env.dataRead env.dataAnswer = DataReadResult.ok d)
    (hw : env.writeOk = false) :
    runStep port (some t) (some l) env =
      ⟨[dataPromptStr], [couldNotCreateMsg, servedMsg port (getFileNameFromPath l)],
        none, [Next.restart, Next.restart]⟩ ∧
    (runStep port (some t) (some l) env).next.length = 2 ∧
    (∀ env' : Env,
      (runStep port none none env').prompts.head? = some templatePromptStr) := by
  have hfalsy : jsFalsy (some t) = false := by
    cases t with
    | nil => exact absurd rfl ht
    | cons c t' => rfl
  have hpe : env.dataAnswer.isEmpty = false := by
    cases hda : env.dataAnswer with
    | nil => exact absurd hda ha
    | cons c p' => rfl
  have hj' : includesSub env.dataAnswer ['.', 'j', 's', 'o', 'n'] = true := by
    simpa using hj
  have hmain : runStep port (some t) (some l) env =
      ⟨[dataPromptStr], [couldNotCreateMsg, servedMsg port (getFileNameFromPath l)],
        none, [Next.restart, Next.restart]⟩ := by
    simp [runStep, hfalsy, runStep2, ha, hj', hr, hw]
  refine ⟨hmain, by rw [hmain]; rfl, ?_⟩
  intro env'
  by_cases hcond : env'.templateAnswer = [] ∨
      includesSub env'.templateAnswer ['.', 'h', 't', 'm', 'l'] = false
  · rcases hcond with h | h
    · simp [runStep, jsFalsy, h]
    · simp [runStep, jsFalsy, h]
  · push_neg at hcond
    have h1 := hcond.1
    have h2 : includesSub env'.templateAnswer ['.', 'h', 't', 'm', 'l'] = true := by
      have := hcond.2
      cases hb : includesSub env'.templateAnswer ['.', 'h', 't', 'm', 'l'] with
      | false => exact absurd hb this
      | true => rfl
    cases hrd : env'.templateRead env'.templateAnswer with
    | none => simp [runStep, jsFalsy, h1, h2, hrd]
    | some content => simp [runStep, jsFalsy, h1, h2, hrd]

/-- Witness for `c10_write_failure_double_run` with a concrete
environment whose write fails. -/
theorem c10_witness :
    runStep "3000".toList (some "<p>%x%</p>".toList) (some "a/t.html".toList)
        ⟨[], fun _ => none, "d.json".toList,
          fun _ => DataReadResult.ok (fun _ => none), false⟩ =
      ⟨[dataPromptStr],
        [couldNotCreateMsg,
          servedMsg "3000".toList (getFileNameFromPath "a/t.html".toList)],
        none, [Next.restart, Next.restart]⟩ ∧
    (runStep "3000".toList (some "<p>%x%</p>".toList) (some "a/t.html".toList)
        ⟨[], fun _ => none, "d.json".toList,
          fun _ => DataReadResult.ok (fun _ => none), false⟩).next.length = 2 ∧
    (∀ env' : Env,
      (runStep "3000".toList none none env').prompts.head? =
        some templatePromptStr) :=
  c10_write_failure_double_run "3000".toList "<p>%x%</p>".toList "a/t.html".toList
    ⟨[], fun _ => none, "d.json".toList,
      fun _ => DataReadResult.ok (fun _ => none), false⟩
    (fun _ => none) (by decide) (by decide) (by decide) rfl rfl

example : scanMatches "%a% %b%".toList = ["%a%".toList, "%b%".toList] := by decide
example : scanMatches "%%a%".toList = ["%%a%".toList] := by decide
example : scanMatches "% a%".toList = [] := by decide
example : scanMatches "%%%".toList = ["%%%".toList] := by decide
example : scanMatches "%a.b%".toList = [] := by decide

example :
    generateTemplate "<p>Hello %name%!</p>".toList
      (fun k => if k = "name".toList then some "Dasha".toList else none) =
    "<p>Hello Dasha!</p>".toList := by decide

example :
    generateTemplate "%a% %b%".toList
      (fun k => if k = "a".toList then some "X".toList else none) =
    "X ".toList := by decide

example :
    generateTemplate "%a% %b%".toList
      (fun k =>
        if k = "a".toList then some "%b%".toList
        else if k = "b".toList then some "X".toList else none) =
    "X %b%".toList := by decide

example :
    renderSpec
      (fun k =>
        if k = "a".toList then some "%b%".toList
        else if k = "b".toList then some "X".toList else none)
      "%a% %b%".toList =
    "%b% X".toList := by decide

example :
    generateTemplate "%v%".toList
      (fun k => if k = "v".toList then some "$&".toList else none) =
    "%v%".toList := by decide

end Templatr
